import Mathlib

/-!
# iPixel-CLI protocol codec and transport — verification development

Shallow embedding of the protocol codec (`bit_tools.py`, `send_text.py`,
`send_image.py`), the command layer (`commands/`), and the windowed
transport engine (`transport/send.py`) of the iPixel-CLI repository.

Bytes are modelled as `Nat` (values `< 256` in every reachable context),
hexadecimal strings as lists of nibbles (`Nat` values `< 16`), and Python
exceptions as `Except String`.
-/

namespace IPixel

/-! ## Hexadecimal string machinery

Python builds most frames out of hex strings.  A hex string is modelled as a
`List Nat` of nibbles, most significant first. -/

/-- Fuel-driven worker for `hexDigits`; `fuel > n` always suffices because the
argument is divided by 16 at each step. -/
def hexDigitsGo : Nat → Nat → List Nat
  | 0, _ => []
  | fuel + 1, n => if n < 16 then [n] else hexDigitsGo fuel (n / 16) ++ [n % 16]

/-- The nibble list of `hex(n)[2:]` in Python: most-significant-first base-16
digits, with no leading zeros, and `[0]` for `n = 0`. -/
def hexDigits (n : Nat) : List Nat := hexDigitsGo (n + 1) n

/-- Python `str.zfill(w)` on a nibble list: left-pad with zeros to width `w`
(identity when the list is already at least that long). -/
def zfill (w : Nat) (ds : List Nat) : List Nat :=
  List.replicate (w - ds.length) 0 ++ ds

/-- Split a list into consecutive pairs, mirroring Python
`[s[i:i+2] for i in range(0, len(s), 2)]` (a trailing singleton is kept). -/
def groupPairs : List Nat → List (List Nat)
  | [] => []
  | [a] => [[a]]
  | a :: b :: rest => [a, b] :: groupPairs rest

/-- `bit_tools.switch_endian`: on a hex string, reverse the order of the
2-nibble bytes; raises `ValueError` when the length is odd. -/
def switch_endian (ds : List Nat) : Except String (List Nat) :=
  if ds.length % 2 ≠ 0 then
    .error "La longueur de la chaine hexadecimale doit etre paire."
  else
    .ok ((groupPairs ds).reverse.flatten)

/-- `bytes.fromhex` on an (even-length) nibble list: pair up nibbles into
byte values.  (Python raises on odd length; every call site in scope feeds an
even-length string, a trailing odd nibble is dropped here.) -/
def nibbleBytes : List Nat → List Nat
  | a :: b :: rest => (16 * a + b) :: nibbleBytes rest
  | _ => []

/-- `bit_tools.get_frame_size(data, size)` with `byteCount = len(data) // 2`:
`switch_endian(hex(byteCount)[2:].zfill(size))`.  The result is a nibble
string; callers apply `bytes.fromhex`. -/
def get_frame_size (byteCount size : Nat) : Except String (List Nat) :=
  switch_endian (zfill size (hexDigits byteCount))

/-- Little-endian base-256 digits of `n`, exactly `w` bytes
(`n.to_bytes(w, "little")` without the overflow check). -/
def leBytes : Nat → Nat → List Nat
  | 0, _ => []
  | w + 1, n => (n % 256) :: leBytes w (n / 256)

/-- Python `int.to_bytes(w, "little")`: raises `OverflowError` when the value
does not fit. -/
def to_bytes_le (w n : Nat) : Except String (List Nat) :=
  if n < 256 ^ w then .ok (leBytes w n) else .error "int too big to convert"

/-- Python `int.to_bytes(w, "big")`. -/
def to_bytes_be (w n : Nat) : Except String (List Nat) :=
  if n < 256 ^ w then .ok (leBytes w n).reverse else .error "int too big to convert"

/-! ## CRC-32 (`binascii.crc32`) -/

/-- One bit step of the reflected CRC-32: shift right, conditionally XOR the
polynomial `0xEDB88320`. -/
def crc32Step (c : Nat) : Nat :=
  if c % 2 = 1 then (c / 2) ^^^ 0xEDB88320 else c / 2

/-- Fold one byte into the running CRC. -/
def crc32Byte (c b : Nat) : Nat := crc32Step^[8] (c ^^^ b)

/-- `binascii.crc32(data) & 0xFFFFFFFF`: init `0xFFFFFFFF`, per-byte update,
final complement. -/
def crc32 (data : List Nat) : Nat :=
  0xFFFFFFFF ^^^ data.foldl crc32Byte 0xFFFFFFFF

/-- `bit_tools.CRC32_checksum` / the checksum step of `send_image`: the 8-digit
hex CRC with its byte order switched (little-endian).  Result is a nibble
string. -/
def CRC32_checksum (data : List Nat) : Except String (List Nat) :=
  switch_endian (zfill 8 (hexDigits (crc32 data)))

/-! ### Basic lemmas about the hex machinery -/

theorem hexDigitsGo_fuel (n : Nat) : ∀ f₁ f₂, n < f₁ → n < f₂ →
    hexDigitsGo f₁ n = hexDigitsGo f₂ n := by
  induction n using Nat.strong_induction_on with
  | _ n ih =>
    intro f₁ f₂ h₁ h₂
    match f₁, f₂ with
    | f₁ + 1, f₂ + 1 =>
      simp only [hexDigitsGo]
      by_cases h : n < 16
      · simp [h]
      · simp only [h, if_false]
        have hdiv : n / 16 < n := Nat.div_lt_self (by omega) (by omega)
        rw [ih (n / 16) hdiv f₁ f₂ (by omega) (by omega)]

theorem hexDigits_of_lt (n : Nat) (h : n < 16) : hexDigits n = [n] := by
  simp [hexDigits, hexDigitsGo, h]

theorem hexDigits_step (n : Nat) (h : 16 ≤ n) :
    hexDigits n = hexDigits (n / 16) ++ [n % 16] := by
  have hdiv : n / 16 < n := Nat.div_lt_self (by omega) (by omega)
  have h1 : hexDigitsGo (n + 1) n
      = if n < 16 then [n] else hexDigitsGo n (n / 16) ++ [n % 16] := rfl
  show hexDigitsGo (n + 1) n = _
  rw [h1, if_neg (Nat.not_lt.mpr h),
    hexDigitsGo_fuel (n / 16) n (n / 16 + 1) hdiv (Nat.lt_succ_self _)]
  rfl

/-- Big-endian form: `zfill k (hexDigits n)` is the reverse of the `k`
little-endian base-16 digits, whenever `n` fits in `k` digits (and `k ≥ 1`). -/
def leNibbles : Nat → Nat → List Nat
  | 0, _ => []
  | k + 1, n => (n % 16) :: leNibbles k (n / 16)

theorem leNibbles_length (k n : Nat) : (leNibbles k n).length = k := by
  induction k generalizing n with
  | zero => rfl
  | succ k ih => simp [leNibbles, ih]

theorem leNibbles_zero (k : Nat) : leNibbles k 0 = List.replicate k 0 := by
  induction k with
  | zero => rfl
  | succ k ih => simp [leNibbles, ih, List.replicate_succ]

theorem hexDigits_length_le (k n : Nat) (hk : 1 ≤ k) (h : n < 16 ^ k) :
    (hexDigits n).length ≤ k := by
  induction k generalizing n with
  | zero => omega
  | succ k ih =>
    by_cases hn : n < 16
    · simp [hexDigits_of_lt n hn]
    · have hk1 : 1 ≤ k := by
        by_contra hk0
        have : k = 0 := by omega
        subst this
        simp [pow_succ, pow_zero] at h
        omega
      rw [hexDigits_step n (by omega)]
      have : n / 16 < 16 ^ k := by
        rw [Nat.div_lt_iff_lt_mul (by norm_num)]
        calc n < 16 ^ (k + 1) := h
        _ = 16 ^ k * 16 := by ring
      simp only [List.length_append, List.length_singleton]
      have := ih hk1 (n := n / 16) this
      omega

theorem zfill_hexDigits_eq (k n : Nat) (hk : 1 ≤ k) (h : n < 16 ^ k) :
    zfill k (hexDigits n) = (leNibbles k n).reverse := by
  induction k generalizing n with
  | zero => omega
  | succ k ih =>
    by_cases hk0 : k = 0
    · subst hk0
      have hn : n < 16 := by simpa using h
      simp [zfill, hexDigits_of_lt n hn, leNibbles, Nat.mod_eq_of_lt hn]
    · have hk1 : 1 ≤ k := by omega
      by_cases hn : n < 16
      · rw [hexDigits_of_lt n hn, leNibbles]
        have hdiv : n / 16 = 0 := Nat.div_eq_of_lt hn
        rw [hdiv, leNibbles_zero]
        simp [zfill, Nat.mod_eq_of_lt hn, List.replicate_succ']
      · rw [hexDigits_step n (by omega), leNibbles]
        have hfit : n / 16 < 16 ^ k := by
          rw [Nat.div_lt_iff_lt_mul (by norm_num)]
          calc n < 16 ^ (k + 1) := h
          _ = 16 ^ k * 16 := by ring
        have := ih hk1 (n := n / 16) hfit
        simp only [List.reverse_cons, ← this]
        simp only [zfill, List.length_append, List.length_singleton]
        have hlen : (hexDigits (n / 16)).length ≤ k := hexDigits_length_le k _ hk1 hfit
        have : k + 1 - ((hexDigits (n / 16)).length + 1) = k - (hexDigits (n / 16)).length := by
          omega
        rw [this, List.append_assoc]

theorem groupPairs_append_pair (l : List Nat) (a b : Nat) (h : l.length % 2 = 0) :
    groupPairs (l ++ [a, b]) = groupPairs l ++ [[a, b]] := by
  induction l using groupPairs.induct with
  | case1 => rfl
  | case2 x => simp at h
  | case3 x y rest ih =>
    simp only [List.length_cons] at h
    have : rest.length % 2 = 0 := by omega
    simp [groupPairs, ih this]

theorem groupPairs_length_even (l : List Nat) (h : l.length % 2 = 0) :
    ((groupPairs l).reverse.flatten).length = l.length := by
  induction l using groupPairs.induct with
  | case1 => rfl
  | case2 x => simp at h
  | case3 x y rest ih =>
    simp only [List.length_cons] at h
    have hrest : rest.length % 2 = 0 := by omega
    simp only [groupPairs, List.reverse_cons, List.flatten_append, List.length_append,
      List.flatten, List.length_cons, List.append_nil, ih hrest]
    simp

/-- Pairing/reversing/flattening the big-endian `2*w`-nibble form of `n` and
re-reading pairs as bytes yields the `w`-byte little-endian encoding. -/
theorem nibbleBytes_switch (w n : Nat) :
    nibbleBytes ((groupPairs (leNibbles (2 * w) n).reverse).reverse.flatten) = leBytes w n := by
  induction w generalizing n with
  | zero => rfl
  | succ w ih =>
    have hexp : leNibbles (2 * (w + 1)) n
        = (n % 16) :: (n / 16 % 16) :: leNibbles (2 * w) (n / 256) := by
      show leNibbles (2 * w + 1 + 1) n = _
      simp only [leNibbles]
      rw [Nat.div_div_eq_div_mul]
    rw [hexp]
    simp only [List.reverse_cons, List.append_assoc, List.singleton_append]
    rw [groupPairs_append_pair _ _ _ (by simp [leNibbles_length])]
    simp only [List.reverse_append, List.reverse_cons, List.reverse_nil, List.nil_append,
      List.singleton_append, List.flatten]
    show nibbleBytes ((n / 16 % 16 :: (n % 16 :: ((groupPairs (leNibbles (2 * w) (n / 256)).reverse).reverse.flatten)))) = _
    show (16 * (n / 16 % 16) + n % 16) :: nibbleBytes _ = _
    rw [ih]
    show _ = (n % 256) :: leBytes w (n / 256)
    congr 1
    omega

theorem leBytes_length (w n : Nat) : (leBytes w n).length = w := by
  induction w generalizing n with
  | zero => rfl
  | succ w ih => simp [leBytes, ih]

/-- `get_frame_size` on a byte count that fits in `w` bytes (`w ≥ 1`, field
width `2*w` nibbles) succeeds, and reading the resulting hex string back as
bytes gives the `w`-byte little-endian encoding of the count. -/
theorem get_frame_size_fits (w n : Nat) (hw : 1 ≤ w) (h : n < 256 ^ w) :
    get_frame_size n (2 * w) = .ok ((groupPairs (leNibbles (2 * w) n).reverse).reverse.flatten)
    ∧ nibbleBytes ((groupPairs (leNibbles (2 * w) n).reverse).reverse.flatten) = leBytes w n := by
  have h16 : n < 16 ^ (2 * w) := by
    have : (256 : Nat) ^ w = 16 ^ (2 * w) := by
      rw [show (256 : Nat) = 16 ^ 2 by norm_num, ← pow_mul]
    omega
  have hz := zfill_hexDigits_eq (2 * w) n (by omega) h16
  constructor
  · have heven : ((leNibbles (2 * w) n).reverse).length % 2 = 0 := by
      rw [List.length_reverse, leNibbles_length]
      omega
    simp only [get_frame_size, hz, switch_endian, heven]
    simp
  · exact nibbleBytes_switch w n

/-! ## Data model (`commands/base.py` / `lib/transport/send_plan.py`) -/

/-- `AckPolicy` dataclass: both flags default to `True`. -/
structure AckPolicy where
  ack_per_window : Bool := true
  ack_final : Bool := true
deriving Repr, DecidableEq

/-- `Window` dataclass: a byte payload plus its per-window ack requirement. -/
structure Window where
  data : List Nat
  requires_ack : Bool := true
deriving Repr, DecidableEq

/-- `SendPlan` dataclass with the source's defaults. -/
structure SendPlan where
  id : String
  windows : List Window
  chunk_size : Nat := 244
  window_size : Nat := 12 * 1024
  ack_policy : AckPolicy := {}
deriving Repr, DecidableEq

/-- `single_window_plan` helper. -/
def single_window_plan (plan_id : String) (data : List Nat)
    (requires_ack : Bool := true) (chunk_size : Nat := 244)
    (window_size : Nat := 12 * 1024) (ack_policy : AckPolicy := {}) : SendPlan :=
  { id := plan_id,
    windows := [{ data := data, requires_ack := requires_ack }],
    chunk_size := chunk_size,
    window_size := window_size,
    ack_policy := ack_policy }

/-! ## AckManager notification handler (`transport/send.py`) -/

/-- The two `asyncio.Event`s of `AckManager` as booleans
(`window_event`, `all_event`); an event is "set" when `true`. -/
structure AckState where
  window_event : Bool := false
  all_event : Bool := false
deriving Repr, DecidableEq

/-- The callback built by `AckManager.make_notify_handler`, as a pure state
transformer on the two events.  Mirrors the source: an empty frame is ignored;
a frame of length exactly 5 with `data[0] == 0x05` dispatches on `data[4]` and
returns; otherwise any frame with `data[0] == 0x05` and more than 4 bytes
dispatches the same way; everything else is a no-op. -/
def make_notify_handler (s : AckState) (data : List Nat) : AckState :=
  if data.length = 0 then s
  else if data.length = 5 ∧ data.headD 0 = 0x05 then
    if data.getD 4 0 = 0 ∨ data.getD 4 0 = 1 then { s with window_event := true }
    else if data.getD 4 0 = 3 then { s with window_event := true, all_event := true }
    else s
  else if data.headD 0 = 0x05 ∧ 4 < data.length then
    if data.getD 4 0 = 0 ∨ data.getD 4 0 = 1 then { s with window_event := true }
    else if data.getD 4 0 = 3 then { s with window_event := true, all_event := true }
    else s
  else s

/-! ## Transport engine (`transport/send.py:send_plan`) -/

/-- `_chunk_bytes`: split a buffer into consecutive slices of at most `size`
bytes.  (The Python generator never terminates when `size = 0` and the buffer
is non-empty; no caller passes `size = 0` — `chunk_size` defaults to 244 — and
the model returns `[]` there.) -/
def chunk_bytes (buf : List Nat) (size : Nat) : List (List Nat) :=
  if h : buf = [] ∨ size = 0 then []
  else buf.take size :: chunk_bytes (buf.drop size) size
termination_by buf.length
decreasing_by
  simp only [List.length_drop]
  have hb : buf ≠ [] := fun he => h (Or.inl he)
  have hs : size ≠ 0 := fun he => h (Or.inr he)
  have : 0 < buf.length := List.length_pos.mpr hb
  omega

/-- The RuntimeError message raised by `send_plan` on a per-window ack
timeout. -/
def ackTimeoutMsg : String := "cur12k_no_answer: no ack from device"

/-- The window loop of `send_plan`.  `ackW idx` tells whether the device sets
the window event within `ack_timeout` after window `idx` was written (the
notification callback runs concurrently; for the trace it only matters whether
`asyncio.wait_for(window_event.wait(), ack_timeout)` succeeds).  Returns the
chunks written to the link, in order, and the outcome of the loop. -/
def send_windows (pol : AckPolicy) (csize : Nat) (ackW : Nat → Bool) :
    List Window → Nat → List (List Nat) × Except String Unit
  | [], _ => ([], .ok ())
  | w :: rest, idx =>
    let chunks := chunk_bytes w.data csize
    if pol.ack_per_window ∧ w.requires_ack ∧ ackW idx = false then
      (chunks, .error ackTimeoutMsg)
    else
      let r := send_windows pol csize ackW rest (idx + 1)
      (chunks ++ r.1, r.2)

/-- `transport/send.py:send_plan`: run the window loop; afterwards, when
`ack_policy.ack_final` is set, `asyncio.wait_for(all_event.wait(), ...)` is
awaited but a `TimeoutError` is swallowed (`except: pass`), so the outcome of
the final wait — `ackF`, whether the final signal ever arrives — does not
affect the result. -/
def send_plan (plan : SendPlan) (ackW : Nat → Bool) (ackF : Bool) :
    List (List Nat) × Except String Unit :=
  let r := send_windows plan.ack_policy plan.chunk_size ackW plan.windows 0
  match r.2 with
  | .error e => (r.1, .error e)
  | .ok _ =>
    if plan.ack_policy.ack_final then
      -- awaitFinal: success if ackF, swallowed timeout otherwise — either way ok
      (r.1, .ok ())
    else (r.1, .ok ())

/-! ## Commands: `set_time` (`commands/set_time.py`) -/

/-- `commands/set_time.py:set_time` with explicit hour/minute/second (when all
three are `None` the source reads the system clock first, which is outside the
model).  After `validate_range` checks it returns the raw command bytes
`08 00 01 80 h m s 00` — a `bytes` value, not a `SendPlan`. -/
def set_time (hour minute second : Nat) : Except String (List Nat) :=
  if ¬(hour ≤ 23) then .error "Hour must be between 0 and 23"
  else if ¬(minute ≤ 59) then .error "Minute must be between 0 and 59"
  else if ¬(second ≤ 59) then .error "Second must be between 0 and 59"
  else .ok ([0x08, 0x00, 0x01, 0x80] ++ [hour, minute, second] ++ [0x00])

/-! ## Transport lemmas -/

theorem send_windows_pass (pol : AckPolicy) (csize : Nat) (ackW : Nat → Bool)
    (ws : List Window) (idx : Nat)
    (hall : ∀ j (hj : j < ws.length), (ws.get ⟨j, hj⟩).requires_ack = true →
      ackW (idx + j) = true) :
    send_windows pol csize ackW ws idx
      = ((ws.map (fun w => chunk_bytes w.data csize)).flatten, .ok ()) := by
  induction ws generalizing idx with
  | nil => rfl
  | cons w rest ih =>
    have hw : ¬(pol.ack_per_window ∧ w.requires_ack ∧ ackW idx = false) := by
      rintro ⟨-, hreq, hfalse⟩
      have := hall 0 (by simp) hreq
      simp at this
      rw [hfalse] at this
      exact Bool.false_ne_true this
    have hrest : ∀ j (hj : j < rest.length),
        (rest.get ⟨j, hj⟩).requires_ack = true → ackW (idx + 1 + j) = true := by
      intro j hj hreq
      have := hall (j + 1) (by simpa using Nat.succ_lt_succ hj) (by simpa using hreq)
      simpa [Nat.add_assoc, Nat.add_comm 1 j] using this
    simp only [send_windows, if_neg hw, ih (idx + 1) hrest, List.map_cons,
      List.flatten_cons]

theorem send_windows_fail (pol : AckPolicy) (csize : Nat) (ackW : Nat → Bool)
    (ws : List Window) (idx i : Nat) (hi : i < ws.length)
    (hpol : pol.ack_per_window = true)
    (hreq : (ws.get ⟨i, hi⟩).requires_ack = true)
    (hto : ackW (idx + i) = false)
    (hprev : ∀ j (hj : j < i),
      (ws.get ⟨j, Nat.lt_trans hj hi⟩).requires_ack = true → ackW (idx + j) = true) :
    send_windows pol csize ackW ws idx
      = (((ws.take (i + 1)).map (fun w => chunk_bytes w.data csize)).flatten,
         .error ackTimeoutMsg) := by
  induction ws generalizing idx i with
  | nil => exact absurd hi (Nat.not_lt_zero i)
  | cons w rest ih =>
    cases i with
    | zero =>
      have hw : pol.ack_per_window ∧ w.requires_ack ∧ ackW idx = false := by
        refine ⟨hpol, ?_, by simpa using hto⟩
        simpa using hreq
      simp only [send_windows, if_pos hw, List.take_succ_cons, List.take_zero,
        List.map_cons, List.map_nil, List.flatten_cons, List.flatten_nil,
        List.append_nil]
    | succ i =>
      have hw : ¬(pol.ack_per_window ∧ w.requires_ack ∧ ackW idx = false) := by
        rintro ⟨-, hreqw, hfalse⟩
        have := hprev 0 (Nat.succ_pos i) (by simpa using hreqw)
        simp at this
        rw [hfalse] at this
        exact Bool.false_ne_true this
      have hi' : i < rest.length := by simpa using Nat.lt_of_succ_lt_succ hi
      have hreq' : (rest.get ⟨i, hi'⟩).requires_ack = true := by simpa using hreq
      have hto' : ackW (idx + 1 + i) = false := by
        simpa [Nat.add_assoc, Nat.add_comm 1 i] using hto
      have hprev' : ∀ j (hj : j < i),
          (rest.get ⟨j, Nat.lt_trans hj hi'⟩).requires_ack = true →
            ackW (idx + 1 + j) = true := by
        intro j hj hreqj
        have := hprev (j + 1) (Nat.succ_lt_succ hj) (by simpa using hreqj)
        simpa [Nat.add_assoc, Nat.add_comm 1 j] using this
      simp only [send_windows, if_neg hw, ih (idx + 1) i hi' hreq' hto' hprev',
        List.take_succ_cons, List.map_cons, List.flatten_cons]

/-- C1. If `ack_per_window` holds, window `i` requires an ack, every earlier
window that requires an ack is acknowledged in time (so window `i` is in fact
written), and window `i`'s ack never arrives within the timeout, then `send`
fails with the ack-timeout error and the link trace contains exactly the
chunks of windows `0..i`: no chunk of any later window is ever written. -/
theorem c1_ack_timeout_stops_plan (plan : SendPlan) (ackW : Nat → Bool) (ackF : Bool)
    (i : Nat) (hi : i < plan.windows.length)
    (hpol : plan.ack_policy.ack_per_window = true)
    (hreq : (plan.windows.get ⟨i, hi⟩).requires_ack = true)
    (hto : ackW i = false)
    (hprev : ∀ j (hj : j < i),
      (plan.windows.get ⟨j, Nat.lt_trans hj hi⟩).requires_ack = true → ackW j = true) :
    (send_plan plan ackW ackF).2 = .error ackTimeoutMsg ∧
    (send_plan plan ackW ackF).1
      = ((plan.windows.take (i + 1)).map
          (fun w => chunk_bytes w.data plan.chunk_size)).flatten := by
  have h := send_windows_fail plan.ack_policy plan.chunk_size ackW plan.windows 0 i hi
    hpol hreq (by simpa using hto) (by simpa using hprev)
  constructor
  · simp only [send_plan, h]
  · simp only [send_plan, h]

/-- Witness for C1 at a concrete two-window plan whose first window is never
acknowledged: the send fails with the timeout error and only window 0's
single chunk reaches the link. -/
theorem c1_witness :
    (send_plan { id := "p", windows := [⟨[1, 2, 3], true⟩, ⟨[4, 5], true⟩] }
        (fun _ => false) false).2 = .error ackTimeoutMsg ∧
    (send_plan { id := "p", windows := [⟨[1, 2, 3], true⟩, ⟨[4, 5], true⟩] }
        (fun _ => false) false).1
      = (([⟨[1, 2, 3], true⟩, ⟨[4, 5], true⟩] : List Window).take 1
          |>.map (fun w => chunk_bytes w.data 244)).flatten := by
  exact c1_ack_timeout_stops_plan
    { id := "p", windows := [⟨[1, 2, 3], true⟩, ⟨[4, 5], true⟩] }
    (fun _ => false) false 0 (by decide) (by decide) (by decide) (by decide)
    (by intro j hj; omega)

/-- C8. If every window of the plan is acknowledged in time and
`ack_policy.ack_final` is set but the final signal never arrives
(`ackF = false`), the final-ack timeout is swallowed: `send` still
completes with success. -/
theorem c8_final_timeout_swallowed (plan : SendPlan) (ackW : Nat → Bool)
    (hall : ∀ j (hj : j < plan.windows.length),
      (plan.windows.get ⟨j, hj⟩).requires_ack = true → ackW j = true)
    (hfin : plan.ack_policy.ack_final = true) :
    (send_plan plan ackW false).2 = .ok () := by
  have h := send_windows_pass plan.ack_policy plan.chunk_size ackW plan.windows 0
    (by simpa using hall)
  simp only [send_plan, h, hfin, if_pos]

/-- Witness for C8: a one-window plan whose window is acked but whose final
signal never arrives still succeeds. -/
theorem c8_witness :
    (send_plan (single_window_plan "t" [9, 9, 9]) (fun _ => true) false).2 = .ok () := by
  exact c8_final_timeout_swallowed (single_window_plan "t" [9, 9, 9]) (fun _ => true)
    (by intro j hj hreq; rfl) (by rfl)

/-- C5. Behaviour of the `AckManager` notification callback: for an inbound
frame of length at least 5 whose first byte is `0x05`, status byte 0 or 1 sets
only the window signal, status 3 sets both the window and the final signal,
and any other status changes neither; a frame not of that shape changes
neither signal. -/
theorem c5_notify_handler (s : AckState) (data : List Nat) :
    (5 ≤ data.length ∧ data.headD 0 = 0x05 →
      ((data.getD 4 0 = 0 ∨ data.getD 4 0 = 1) →
        make_notify_handler s data = { s with window_event := true }) ∧
      (data.getD 4 0 = 3 →
        make_notify_handler s data = { s with window_event := true, all_event := true }) ∧
      (data.getD 4 0 ≠ 0 → data.getD 4 0 ≠ 1 → data.getD 4 0 ≠ 3 →
        make_notify_handler s data = s)) ∧
    (¬(5 ≤ data.length ∧ data.headD 0 = 0x05) → make_notify_handler s data = s) := by
  constructor
  · rintro ⟨hlen, hhead⟩
    have hne : ¬ data.length = 0 := by omega
    refine ⟨?_, ?_, ?_⟩
    · intro h01
      by_cases h5 : data.length = 5
      · simp only [make_notify_handler, if_neg hne]
        rw [if_pos (show data.length = 5 ∧ data.headD 0 = 5 from ⟨h5, hhead⟩),
          if_pos h01]
      · simp only [make_notify_handler, if_neg hne]
        rw [if_neg (by rintro ⟨h, -⟩; exact h5 h),
          if_pos ⟨hhead, by omega⟩, if_pos h01]
    · intro h3
      have hn01 : ¬(data.getD 4 0 = 0 ∨ data.getD 4 0 = 1) := by omega
      by_cases h5 : data.length = 5
      · simp only [make_notify_handler, if_neg hne]
        rw [if_pos (show data.length = 5 ∧ data.headD 0 = 5 from ⟨h5, hhead⟩),
          if_neg hn01, if_pos h3]
      · simp only [make_notify_handler, if_neg hne]
        rw [if_neg (by rintro ⟨h, -⟩; exact h5 h),
          if_pos ⟨hhead, by omega⟩, if_neg hn01, if_pos h3]
    · intro h0 h1 h3
      have hn01 : ¬(data.getD 4 0 = 0 ∨ data.getD 4 0 = 1) := by omega
      by_cases h5 : data.length = 5
      · simp only [make_notify_handler, if_neg hne]
        rw [if_pos (show data.length = 5 ∧ data.headD 0 = 5 from ⟨h5, hhead⟩),
          if_neg hn01, if_neg h3]
      · simp only [make_notify_handler, if_neg hne]
        rw [if_neg (by rintro ⟨h, -⟩; exact h5 h),
          if_pos ⟨hhead, by omega⟩, if_neg hn01, if_neg h3]
  · intro hshape
    by_cases hne : data.length = 0
    · simp only [make_notify_handler, if_pos hne]
    · simp only [make_notify_handler, if_neg hne]
      rw [if_neg (by rintro ⟨h5, hh⟩; exact hshape ⟨by omega, hh⟩),
        if_neg (by rintro ⟨hh, h4⟩; exact hshape ⟨by omega, hh⟩)]

/-- Witness for C5 at the spec's two test frames: `05 00 00 00 03` sets both
signals, `05 00 00 00 02` sets neither. -/
theorem c5_witness :
    make_notify_handler ⟨false, false⟩ [5, 0, 0, 0, 3] = ⟨true, true⟩ ∧
    make_notify_handler ⟨false, false⟩ [5, 0, 0, 0, 2] = ⟨false, false⟩ := by
  constructor
  · exact ((c5_notify_handler ⟨false, false⟩ [5, 0, 0, 0, 3]).1
      ⟨by decide, by decide⟩).2.1 (by decide)
  · exact ((c5_notify_handler ⟨false, false⟩ [5, 0, 0, 0, 2]).1
      ⟨by decide, by decide⟩).2.2 (by decide) (by decide) (by decide)

/-- C7 (code evaluation at the failing input).  `set_time(12, 30, 45)` returns
the raw byte string `08 00 01 80 0c 1e 2d 00`, not a `SendPlan`: unlike every
other command in `COMMANDS`, `set_time` was never migrated to
`single_window_plan`, and `client.py` passes its return value straight to
`transport.send_plan`, which immediately dereferences `plan.id`. -/
theorem c7_set_time_returns_bytes :
    set_time 12 30 45 = .ok [0x08, 0x00, 0x01, 0x80, 12, 30, 45, 0x00] := by rfl

/-! ## Glyph bitmap transforms (`commands/send_text.py`) -/

/-- `_reverse_bits_16` / `bit_tools.reverse_bits_16`: bit-reversal of a 16-bit
value by the classic mask-and-shift sequence. -/
def reverse_bits_16 (n : Nat) : Nat :=
  let n := ((n &&& 0xFF00) >>> 8) ||| ((n &&& 0x00FF) <<< 8)
  let n := ((n &&& 0xF0F0) >>> 4) ||| ((n &&& 0x0F0F) <<< 4)
  let n := ((n &&& 0xCCCC) >>> 2) ||| ((n &&& 0x3333) <<< 2)
  ((n &&& 0xAAAA) >>> 1) ||| ((n &&& 0x5555) <<< 1)

/-- `_invert_frames_bytes`: reverse the order of the 2-byte chunks; raises
`ValueError` on odd byte count. -/
def invert_frames_bytes (data : List Nat) : Except String (List Nat) :=
  if data.length % 2 ≠ 0 then
    .error "Data length must be multiple of 2 bytes for frame inversion"
  else
    .ok ((groupPairs data).reverse.flatten)

/-- `_switch_endian_bytes`: `data[::-1]`. -/
def switch_endian_bytes (data : List Nat) : List Nat := data.reverse

/-- Worker for `_logic_reverse_bits_order_bytes`: each consecutive 2-byte
big-endian word through `reverse_bits_16`, re-emitted big-endian. -/
def revBitsWords : List Nat → List Nat
  | a :: b :: rest =>
    reverse_bits_16 (256 * a + b) / 256 :: reverse_bits_16 (256 * a + b) % 256
      :: revBitsWords rest
  | _ => []

/-- `_logic_reverse_bits_order_bytes`: raises `ValueError` on odd byte count,
otherwise reverses the bit order inside each 16-bit word. -/
def logic_reverse_bits_order_bytes (data : List Nat) : Except String (List Nat) :=
  if data.length % 2 ≠ 0 then
    .error "Data length must be multiple of 2 bytes for bit reversal"
  else
    .ok (revBitsWords data)

/-- The three-stage wire transform applied to each glyph bitmap in
`_encode_text`: invert 2-byte frames, reverse all bytes, reverse bits per
16-bit word. -/
def glyph_wire_transform (raw : List Nat) : Except String (List Nat) := do
  let a ← invert_frames_bytes raw
  logic_reverse_bits_order_bytes (switch_endian_bytes a)

/-- The per-row accumulator pair `(line_value, line_value_2)` of
`charimg_to_hex_string`: bit `15 - x` of the first value for `x < 16`, bit
`31 - x` of the second for `x ≥ 16`, set iff the pixel is lit. -/
def charimg_line (pix : Nat → Nat → Bool) (width y : Nat) : Nat × Nat :=
  (List.range width).foldl
    (fun p x =>
      if pix x y then
        if x < 16 then (p.1 ||| (1 <<< (15 - x)), p.2)
        else (p.1, p.2 ||| (1 <<< (31 - x)))
      else p)
    (0, 0)

/-- One row of `charimg_to_hex_string`: merge the two accumulators when the
glyph is wider than 16, then format with the width-dependent hex precision. -/
def charimg_row_hex (pix : Nat → Nat → Bool) (width y : Nat) : List Nat :=
  let lv := charimg_line pix width y
  let merged := if 16 < width then lv.2 ||| (lv.1 <<< 16) else lv.1
  if width ≤ 8 then zfill 2 (hexDigits (merged >>> 8))
  else if width ≤ 16 then zfill 4 (hexDigits merged)
  else if width ≤ 24 then zfill 6 (hexDigits (merged >>> 8))
  else zfill 8 (hexDigits merged)

/-- `charimg_to_hex_string` on a `width×height` black-and-white image given by
`pix x y` (pixel lit), rows concatenated top to bottom.  The source also
returns the width; callers pass it separately here. -/
def charimg_to_hex_string (pix : Nat → Nat → Bool) (width height : Nat) : List Nat :=
  ((List.range height).map (fun y => charimg_row_hex pix width y)).flatten

/-- The raw-bitmap-to-wire-bitmap path of `_encode_text` for one glyph:
`bytes.fromhex` of the `charimg_to_hex_string` output, then the three-stage
transform. -/
def glyph_wire_bitmap (pix : Nat → Nat → Bool) (width height : Nat) :
    Except String (List Nat) :=
  glyph_wire_transform (nibbleBytes (charimg_to_hex_string pix width height))

/-- C9, counterexample.  A fully-on 9-wide, 16-high glyph (`pix x y` true for
every in-range `x < 9`) does NOT produce an all-`0xFF` wire bitmap: each row
is `FF80` raw (bits 15..7 set, padding bits 6..0 clear), and the three-stage
transform turns each word into `FF 01`. -/
theorem c9_counterexample :
    glyph_wire_bitmap (fun x _ => decide (x < 9)) 9 16
      = .ok ((List.replicate 16 [0xFF, 0x01]).flatten) ∧
    (List.replicate 16 [0xFF, 0x01]).flatten ≠ List.replicate (2 * 16) 0xFF := by
  exact ⟨by rfl, by decide⟩

/-- C9 as amended.  A fully-off `9×16` glyph yields the all-zero `2*16`-byte
wire bitmap; a fully-on `9×16` glyph yields the 32-byte pattern `FF 01`
repeated per row (the 7 bits of row padding beyond `x = 8` stay clear), not
all `0xFF`. -/
theorem c9_amended_glyph_patterns :
    glyph_wire_bitmap (fun _ _ => false) 9 16 = .ok (List.replicate (2 * 16) 0) ∧
    glyph_wire_bitmap (fun x _ => decide (x < 9)) 9 16
      = .ok ((List.replicate 16 [0xFF, 0x01]).flatten) := by
  exact ⟨by rfl, by rfl⟩

/-! ## Length fields (`bit_tools.get_frame_size` as the spec's `lengthField`) -/

/-- The spec's `lengthField(byteCount, fieldWidthBytes)`: `get_frame_size`
with a field width of `2 * fieldWidthBytes` hex characters, read back as bytes
(`bytes.fromhex` at every call site). -/
def lengthField (byteCount fieldWidthBytes : Nat) : Except String (List Nat) :=
  match get_frame_size byteCount (2 * fieldWidthBytes) with
  | .error e => .error e
  | .ok s => .ok (nibbleBytes s)

/-- C6, counterexample.  `byteCount = 0x100000` does not fit in a 2-byte
field, yet `lengthField` does not fail: `hex(0x100000)` has the even length 6,
so `switch_endian` accepts it and a silently widened 3-byte field `00 00 10`
is returned. -/
theorem c6_counterexample : lengthField 0x100000 2 = .ok [0x00, 0x00, 0x10] := by rfl

/-- C6 as amended.  When `byteCount` fits in `fieldWidthBytes` bytes the
little-endian encoding is returned — in particular `lengthField 256 2` is
`00 01` — and `lengthField 65536 2` does fail, but only because
`hex(65536)` has odd length; an overflowing count with an even-length hex
representation is silently widened instead of failing. -/
theorem c6_amended_length_field (byteCount w : Nat) (hw : 1 ≤ w)
    (h : byteCount < 256 ^ w) :
    lengthField byteCount w = .ok (leBytes w byteCount) ∧
    lengthField 256 2 = .ok [0x00, 0x01] ∧
    (∃ e, lengthField 65536 2 = .error e) ∧
    lengthField 0x100000 2 = .ok [0x00, 0x00, 0x10] := by
  refine ⟨?_, by rfl, ⟨_, by rfl⟩, by rfl⟩
  have hf := get_frame_size_fits w byteCount hw h
  simp only [lengthField, hf.1, hf.2]

/-- Witness for C6's amended theorem at `byteCount = 256`, width 2: the
encoding is the little-endian `00 01`. -/
theorem c6_witness : lengthField 256 2 = .ok (leBytes 2 256) :=
  (c6_amended_length_field 256 2 (by decide) (by decide)).1

/-! ## `send_image` (GIF branch, `commands/send_image.py`) -/

/-- `_hex_len_prefix_for(inner_hex)`:
`bytes.fromhex(get_frame_size("FFFF" + inner_hex, 4))` — the byte count seen
by `get_frame_size` is `2 + len(frame)`. -/
def hex_len_prefix_for (frame : List Nat) : Except String (List Nat) :=
  match get_frame_size (2 + frame.length) 4 with
  | .error e => .error e
  | .ok s => .ok (nibbleBytes s)

/-- The local `window_size = 12 * 1024` of `send_image`'s GIF loop. -/
def gif_window_size : Nat := 12 * 1024

/-- The GIF window loop of `send_image`: slice the raw GIF into
`gif_window_size`-byte chunks; window 0 gets option `0x00` and serial `0x01`,
later windows option `0x02` and serial `0x65`; each frame is
`03 00 option ⧺ size ⧺ crc ⧺ 02 serial ⧺ chunk`, individually
length-prefixed. -/
def send_gif_windows (size_bytes crc_bytes : List Nat) (gif : List Nat) (idx : Nat) :
    Except String (List Window) :=
  if gif = [] then .ok []
  else
    let chunk_payload := gif.take gif_window_size
    let opt := if idx = 0 then 0x00 else 0x02
    let serial := if idx = 0 then 0x01 else 0x65
    let frame := [0x03, 0x00, opt] ++ size_bytes ++ crc_bytes ++ [0x02, serial]
      ++ chunk_payload
    match hex_len_prefix_for frame with
    | .error e => .error e
    | .ok pfx =>
      match send_gif_windows size_bytes crc_bytes (gif.drop gif_window_size) (idx + 1) with
      | .error e => .error e
      | .ok rest => .ok ({ data := pfx ++ frame, requires_ack := true } :: rest)
termination_by gif.length
decreasing_by
  simp only [List.length_drop]
  rename_i h
  have : 0 < gif.length := List.length_pos.mpr h
  simp only [gif_window_size]
  omega

/-- The GIF branch of `send_image` on already-loaded raw GIF bytes
(`is_gif = True`, no resizing): whole-file CRC and total size computed once,
then the window loop.  The resulting plan keeps the `SendPlan` defaults
(chunk size 244, both ack flags set). -/
def send_image_gif (gif : List Nat) : Except String SendPlan :=
  match CRC32_checksum gif with
  | .error e => .error e
  | .ok checksum =>
    match get_frame_size gif.length 8 with
    | .error e => .error e
    | .ok size_hex =>
      match send_gif_windows (nibbleBytes size_hex) (nibbleBytes checksum) gif 0 with
      | .error e => .error e
      | .ok ws => .ok { id := "send_image", windows := ws }

/-! ### CRC bounds and `send_image` lemmas -/

theorem crc32Step_lt (c : Nat) (h : c < 2 ^ 32) : crc32Step c < 2 ^ 32 := by
  unfold crc32Step
  split
  · have h1 : c / 2 < 2 ^ 32 := by omega
    have h2 : (0xEDB88320 : Nat) < 2 ^ 32 := by norm_num
    exact Nat.xor_lt_two_pow h1 h2
  · omega

theorem crc32Byte_lt (c b : Nat) (hc : c < 2 ^ 32) (hb : b < 256) :
    crc32Byte c b < 2 ^ 32 := by
  have hxor : c ^^^ b < 2 ^ 32 :=
    Nat.xor_lt_two_pow hc (lt_trans hb (by norm_num))
  unfold crc32Byte
  have : ∀ k x, x < 2 ^ 32 → crc32Step^[k] x < 2 ^ 32 := by
    intro k
    induction k with
    | zero => intro x hx; simpa using hx
    | succ k ih =>
      intro x hx
      rw [Function.iterate_succ_apply]
      exact ih _ (crc32Step_lt x hx)
  exact this 8 _ hxor

theorem crc32_lt (data : List Nat) (h : ∀ b ∈ data, b < 256) :
    crc32 data < 2 ^ 32 := by
  unfold crc32
  have hfold : ∀ c, c < 2 ^ 32 → data.foldl crc32Byte c < 2 ^ 32 := by
    induction data with
    | nil => intro c hc; simpa using hc
    | cons b rest ih =>
      intro c hc
      simp only [List.foldl_cons]
      have hb : b < 256 := h b (List.mem_cons_self b rest)
      exact ih (fun x hx => h x (List.mem_cons_of_mem b hx)) _ (crc32Byte_lt c b hc hb)
  have := hfold 0xFFFFFFFF (by norm_num)
  exact Nat.xor_lt_two_pow (by norm_num) this

/-- `CRC32_checksum` never raises on byte input, and reading its hex output
back as bytes gives the 4-byte little-endian CRC. -/
theorem CRC32_checksum_ok (data : List Nat) (h : ∀ b ∈ data, b < 256) :
    ∃ s, CRC32_checksum data = .ok s ∧ nibbleBytes s = leBytes 4 (crc32 data) := by
  have hlt : crc32 data < 256 ^ 4 := by
    have := crc32_lt data h
    norm_num at this ⊢
    omega
  have hf := get_frame_size_fits 4 (crc32 data) (by norm_num) hlt
  have h8 : (2 * 4 : Nat) = 8 := by norm_num
  rw [h8] at hf
  refine ⟨_, ?_, hf.2⟩
  simpa [get_frame_size, CRC32_checksum] using hf.1

/-- One unfolding of the GIF window loop when the remaining data is nonempty,
the size and CRC fields are 4 bytes, and the frame fits the 2-byte length
prefix: the prefix encodes `15 + len(chunk)` little-endian. -/
theorem send_gif_windows_cons (size_bytes crc_bytes gif : List Nat) (idx : Nat)
    (hg : gif ≠ []) (hsB : size_bytes.length = 4) (hcB : crc_bytes.length = 4)
    (hfit : 15 + (gif.take gif_window_size).length < 65536) :
    send_gif_windows size_bytes crc_bytes gif idx =
      (send_gif_windows size_bytes crc_bytes (gif.drop gif_window_size) (idx + 1)).map
        (fun rest =>
          { data := leBytes 2 (15 + (gif.take gif_window_size).length)
              ++ ([0x03, 0x00, if idx = 0 then 0x00 else 0x02]
                ++ size_bytes ++ crc_bytes
                ++ [0x02, if idx = 0 then 0x01 else 0x65]
                ++ gif.take gif_window_size),
            requires_ack := true } :: rest) := by
  rw [send_gif_windows]
  rw [if_neg hg]
  have hflen : ([0x03, 0x00, if idx = 0 then 0x00 else 0x02] ++ size_bytes ++ crc_bytes
      ++ [0x02, if idx = 0 then 0x01 else 0x65] ++ gif.take gif_window_size).length
      = 13 + (gif.take gif_window_size).length := by
    simp [hsB, hcB]
    omega
  have hcount : 2 + (13 + (gif.take gif_window_size).length)
      = 15 + (gif.take gif_window_size).length := by omega
  have hfits := get_frame_size_fits 2 (15 + (gif.take gif_window_size).length)
    (by norm_num)
    (by
      have h2 : (256 : Nat) ^ 2 = 65536 := by norm_num
      rw [h2]
      exact hfit)
  have h4 : (2 * 2 : Nat) = 4 := by norm_num
  rw [h4] at hfits
  have hpfx : hex_len_prefix_for ([0x03, 0x00, if idx = 0 then 0x00 else 0x02]
      ++ size_bytes ++ crc_bytes ++ [0x02, if idx = 0 then 0x01 else 0x65]
      ++ gif.take gif_window_size)
      = .ok (leBytes 2 (15 + (gif.take gif_window_size).length)) := by
    simp only [hex_len_prefix_for, hflen, hcount, hfits.1, hfits.2]
  simp only [hpfx]
  cases hrec : send_gif_windows size_bytes crc_bytes (gif.drop gif_window_size) (idx + 1) with
  | error e => rfl
  | ok rest => rfl

/-- C2.  For any raw GIF of exactly `12288 * 2 + 10` bytes, the GIF branch of
`send_image` produces a plan of exactly 3 windows; every frame carries the
same 4-byte little-endian total file size and the same 4-byte little-endian
whole-file CRC-32; window 0 has option byte `00` and tail `02 01`, windows 1
and 2 have option byte `02` and tail `02 65`; and each frame carries its own
2-byte length prefix (`0F 30` for the 12288-byte windows, `19 00` for the
10-byte window). -/
theorem c2_gif_three_windows (gif : List Nat) (hbytes : ∀ b ∈ gif, b < 256)
    (hlen : gif.length = 12288 * 2 + 10) :
    send_image_gif gif = .ok
      { id := "send_image",
        windows := [
          { data := [0x0F, 0x30] ++ ([0x03, 0x00, 0x00] ++ leBytes 4 gif.length
              ++ leBytes 4 (crc32 gif) ++ [0x02, 0x01] ++ gif.take 12288),
            requires_ack := true },
          { data := [0x0F, 0x30] ++ ([0x03, 0x00, 0x02] ++ leBytes 4 gif.length
              ++ leBytes 4 (crc32 gif) ++ [0x02, 0x65] ++ (gif.drop 12288).take 12288),
            requires_ack := true },
          { data := [0x19, 0x00] ++ ([0x03, 0x00, 0x02] ++ leBytes 4 gif.length
              ++ leBytes 4 (crc32 gif) ++ [0x02, 0x65]
              ++ ((gif.drop 12288).drop 12288).take 12288),
            requires_ack := true }] } := by
  obtain ⟨s, hs, hsb⟩ := CRC32_checksum_ok gif hbytes
  have hsize : get_frame_size gif.length 8 = .ok [0, 10, 6, 0, 0, 0, 0, 0] := by
    rw [hlen]; rfl
  have hsizeb : nibbleBytes [0, 10, 6, 0, 0, 0, 0, 0] = leBytes 4 gif.length := by
    rw [hlen]; rfl
  have hslen : (nibbleBytes s).length = 4 := by
    rw [hsb, leBytes_length]
  have hl1 : (gif.take gif_window_size).length = 12288 := by
    simp [gif_window_size, hlen]
  have hd1 : (gif.drop gif_window_size).length = 12298 := by
    simp [gif_window_size, hlen]
  have hl2 : ((gif.drop gif_window_size).take gif_window_size).length = 12288 := by
    simp [gif_window_size, hlen]
  have hd2 : (((gif.drop gif_window_size).drop gif_window_size)).length = 10 := by
    simp [gif_window_size, hlen]
  have hl3 : ((((gif.drop gif_window_size).drop gif_window_size)).take gif_window_size).length
      = 10 := by
    simp [gif_window_size, hlen]
  have hd3 : ((((gif.drop gif_window_size).drop gif_window_size)).drop gif_window_size) = [] := by
    have : ((((gif.drop gif_window_size).drop gif_window_size)).drop gif_window_size).length
        = 0 := by
      simp [gif_window_size, hlen]
    exact List.length_eq_zero.mp this
  have hne1 : gif ≠ [] := by
    intro he; rw [he] at hlen; simp at hlen
  have hne2 : gif.drop gif_window_size ≠ [] := by
    intro he; rw [he] at hd1; simp at hd1
  have hne3 : ((gif.drop gif_window_size).drop gif_window_size) ≠ [] := by
    intro he; rw [he] at hd2; simp at hd2
  have hw1 := send_gif_windows_cons (nibbleBytes [0, 10, 6, 0, 0, 0, 0, 0]) (nibbleBytes s)
    gif 0 hne1 (by rw [hsizeb, leBytes_length]) hslen (by rw [hl1]; norm_num)
  have hw2 := send_gif_windows_cons (nibbleBytes [0, 10, 6, 0, 0, 0, 0, 0]) (nibbleBytes s)
    (gif.drop gif_window_size) 1 hne2 (by rw [hsizeb, leBytes_length]) hslen
    (by rw [hl2]; norm_num)
  have hw3 := send_gif_windows_cons (nibbleBytes [0, 10, 6, 0, 0, 0, 0, 0]) (nibbleBytes s)
    ((gif.drop gif_window_size).drop gif_window_size) 2 hne3
    (by rw [hsizeb, leBytes_length]) hslen (by rw [hl3]; norm_num)
  have hw4 : send_gif_windows (nibbleBytes [0, 10, 6, 0, 0, 0, 0, 0]) (nibbleBytes s)
      ((((gif.drop gif_window_size).drop gif_window_size)).drop gif_window_size) 3
      = .ok [] := by
    rw [send_gif_windows, if_pos hd3]
  simp only [send_image_gif, hs, hsize]
  rw [hw1, hw2, hw3, hw4]
  simp only [Except.map, hl1, hl2, hl3, hsb, hsizeb]
  have e1 : leBytes 2 (15 + 12288) = [0x0F, 0x30] := by rfl
  have e2 : leBytes 2 (15 + 10) = [0x19, 0x00] := by rfl
  rw [e1, e2]
  simp only [gif_window_size]
  norm_num

/-- Witness for C2 at a concrete all-zero GIF byte string of length
`12288 * 2 + 10`. -/
theorem c2_witness :
    send_image_gif (List.replicate (12288 * 2 + 10) 0) = .ok
      { id := "send_image",
        windows := [
          { data := [0x0F, 0x30] ++ ([0x03, 0x00, 0x00]
              ++ leBytes 4 (List.replicate (12288 * 2 + 10) 0).length
              ++ leBytes 4 (crc32 (List.replicate (12288 * 2 + 10) 0)) ++ [0x02, 0x01]
              ++ (List.replicate (12288 * 2 + 10) 0).take 12288),
            requires_ack := true },
          { data := [0x0F, 0x30] ++ ([0x03, 0x00, 0x02]
              ++ leBytes 4 (List.replicate (12288 * 2 + 10) 0).length
              ++ leBytes 4 (crc32 (List.replicate (12288 * 2 + 10) 0)) ++ [0x02, 0x65]
              ++ ((List.replicate (12288 * 2 + 10) 0).drop 12288).take 12288),
            requires_ack := true },
          { data := [0x19, 0x00] ++ ([0x03, 0x00, 0x02]
              ++ leBytes 4 (List.replicate (12288 * 2 + 10) 0).length
              ++ leBytes 4 (crc32 (List.replicate (12288 * 2 + 10) 0)) ++ [0x02, 0x65]
              ++ (((List.replicate (12288 * 2 + 10) 0).drop 12288).drop 12288).take 12288),
            requires_ack := true }] } := by
  exact c2_gif_three_windows (List.replicate (12288 * 2 + 10) 0)
    (by intro b hb; rw [List.eq_of_mem_replicate hb]; norm_num)
    (by rw [List.length_replicate])

/-! ## `send_text` (`commands/send_text.py`) -/

theorem nibbleBytes_length : ∀ l : List Nat, (nibbleBytes l).length = l.length / 2
  | [] => rfl
  | [a] => by
    show ([] : List Nat).length = [a].length / 2
    norm_num
  | a :: b :: rest => by
    show (nibbleBytes (a :: b :: rest)).length = _
    simp only [nibbleBytes, List.length_cons, nibbleBytes_length rest]
    omega

theorem revBitsWords_length : ∀ l : List Nat, l.length % 2 = 0 →
    (revBitsWords l).length = l.length
  | [], _ => rfl
  | [_], h => by simp at h
  | a :: b :: rest, h => by
    simp only [revBitsWords, List.length_cons]
    rw [revBitsWords_length rest (by simp only [List.length_cons] at h; omega)]

/-- On an even-length bitmap, the three-stage wire transform succeeds and
preserves the byte count. -/
theorem glyph_wire_transform_ok (raw : List Nat) (h : raw.length % 2 = 0) :
    ∃ wire, glyph_wire_transform raw = .ok wire ∧ wire.length = raw.length := by
  have hinv : invert_frames_bytes raw = .ok ((groupPairs raw).reverse.flatten) := by
    simp [invert_frames_bytes, h]
  have hinvlen : ((groupPairs raw).reverse.flatten).length = raw.length :=
    groupPairs_length_even raw h
  have hrevlen : (((groupPairs raw).reverse.flatten).reverse).length % 2 = 0 := by
    rw [List.length_reverse, hinvlen]
    exact h
  refine ⟨revBitsWords (((groupPairs raw).reverse.flatten).reverse), ?_, ?_⟩
  · unfold glyph_wire_transform
    rw [hinv]
    show logic_reverse_bits_order_bytes
      (switch_endian_bytes ((groupPairs raw).reverse.flatten)) = _
    unfold logic_reverse_bits_order_bytes switch_endian_bytes
    rw [if_neg (by omega)]
  · rw [revBitsWords_length _ hrevlen, List.length_reverse, hinvlen]

/-- The per-character loop of `_encode_text`.  `ras c` models the external
rasterizer call `char_to_hex(char, text_size, font_offset, font)`: `none` for
the `(None, 0)` error return, otherwise the `(hex_string, char_width)` pair.
A falsy (empty) hex string or one `bytes.fromhex` rejects (odd length) is
skipped with `continue`; the three byte-level transforms are then applied and
the glyph block `80 ⧺ color ⧺ width ⧺ height ⧺ wire` is appended. -/
def encode_text_loop (ras : Nat → Option (List Nat × Nat)) (text_size : Nat)
    (color_bytes : List Nat) : List Nat → Except String (List Nat)
  | [] => .ok []
  | c :: rest =>
    match ras c with
    | none => encode_text_loop ras text_size color_bytes rest
    | some (char_hex, char_width) =>
      if char_hex = [] then encode_text_loop ras text_size color_bytes rest
      else if char_hex.length % 2 ≠ 0 then encode_text_loop ras text_size color_bytes rest
      else
        match glyph_wire_transform (nibbleBytes char_hex) with
        | .error e => .error e
        | .ok wire =>
          match encode_text_loop ras text_size color_bytes rest with
          | .error e => .error e
          | .ok tail =>
            .ok (0x80 :: (color_bytes ++ [char_width % 256, text_size % 256] ++ wire ++ tail))

/-- `_encode_text(text, text_size, color, font, font_offset)`: validate the
color, then encode each character (the font and offset are consumed only by
the external rasterizer `ras`). -/
def encode_text (ras : Nat → Option (List Nat × Nat)) (text : List Nat)
    (text_size : Nat) (colorHex : List Nat) : Except String (List Nat) :=
  if colorHex.length % 2 ≠ 0 then .error "Invalid color hex"
  else if (nibbleBytes colorHex).length ≠ 3 then
    .error "Color must be 3 bytes (6 hex chars), e.g. ffffff"
  else encode_text_loop ras text_size (nibbleBytes colorHex) text

/-- `commands/send_text.py:send_text` with the text as a list of characters
and the rasterizer as `ras`.  Follows the source order: range checks (each
raising `ValueError`), the animation 3/4 rejection, the two 2-byte
little-endian header length fields, the big-endian save slot, the 255-char
guard, the color/properties block, `_encode_text`, the CRC-32 over
`num_chars ⧺ properties ⧺ characters` appended little-endian, and the final
assembly wrapped in `single_window_plan`. -/
def send_text (text : List Nat) (rainbow_mode animation save_slot speed : Nat)
    (colorHex : List Nat) (text_size : Nat) (ras : Nat → Option (List Nat × Nat)) :
    Except String SendPlan :=
  if ¬(rainbow_mode ≤ 9) then .error "Rainbow mode must be between 0 and 9"
  else if ¬(animation ≤ 7) then .error "Animation must be between 0 and 7"
  else if ¬(1 ≤ save_slot ∧ save_slot ≤ 10) then .error "Save slot must be between 1 and 10"
  else if ¬(speed ≤ 100) then .error "Speed must be between 0 and 100"
  else if ¬(1 ≤ text.length ∧ text.length ≤ 100) then
    .error "Text length must be between 1 and 100"
  else if ¬(1 ≤ text_size ∧ text_size ≤ 128) then
    .error "Matrix height must be between 1 and 128"
  else if animation = 3 ∨ animation = 4 then .error "Invalid animation for text display"
  else
    let header_gap := 0x06 + text_size * 0x2
    match to_bytes_le 2 (0x1D + text.length * header_gap) with
    | .error e => .error e
    | .ok header1 =>
    match to_bytes_le 2 (0x0E + text.length * header_gap) with
    | .error e => .error e
    | .ok header3 =>
    match to_bytes_be 2 save_slot with
    | .error e => .error e
    | .ok slot_bytes =>
    if 0xFF < text.length then .error "Text too long: max 255 characters"
    else if colorHex.length % 2 ≠ 0 then .error "Invalid color hex"
    else if (nibbleBytes colorHex).length ≠ 3 then
      .error "Color must be 3 bytes (6 hex chars), e.g. ffffff"
    else
      let properties := [0x00, 0x01, 0x01]
        ++ [animation % 256, speed % 256, rainbow_mode % 256]
        ++ nibbleBytes colorHex ++ [0x00, 0x00, 0x00, 0x00]
      match encode_text ras text text_size colorHex with
      | .error e => .error e
      | .ok characters =>
        -- crc32(...) & 0xFFFFFFFF, emitted via .to_bytes(4, "little")
        let checksum := leBytes 4 (crc32 ([text.length] ++ properties ++ characters))
        .ok (single_window_plan "send_text"
          (header1 ++ [0x00, 0x01, 0x00] ++ header3 ++ [0x00, 0x00]
            ++ checksum ++ slot_bytes ++ [text.length] ++ properties ++ characters))

/-- Shared unfolding of `send_text` under in-range parameters and a
successful `_encode_text`. -/
theorem send_text_build (text : List Nat) (rainbow animation slot speed size : Nat)
    (colorHex : List Nat) (ras : Nat → Option (List Nat × Nat)) (blocks : List Nat)
    (hr : rainbow ≤ 9) (ha : animation ≤ 7) (ha34 : ¬(animation = 3 ∨ animation = 4))
    (hs : 1 ≤ slot ∧ slot ≤ 10) (hsp : speed ≤ 100)
    (hl : 1 ≤ text.length ∧ text.length ≤ 100) (hsz : 1 ≤ size ∧ size ≤ 128)
    (hcol : colorHex.length = 6)
    (henc : encode_text ras text size colorHex = .ok blocks) :
    send_text text rainbow animation slot speed colorHex size ras = .ok
      (single_window_plan "send_text"
        (leBytes 2 (0x1D + text.length * (0x06 + size * 2))
          ++ [0x00, 0x01, 0x00]
          ++ leBytes 2 (0x0E + text.length * (0x06 + size * 2))
          ++ [0x00, 0x00]
          ++ leBytes 4 (crc32 ([text.length]
              ++ ([0x00, 0x01, 0x01] ++ [animation % 256, speed % 256, rainbow % 256]
                ++ nibbleBytes colorHex ++ [0x00, 0x00, 0x00, 0x00]) ++ blocks))
          ++ (leBytes 2 slot).reverse
          ++ [text.length]
          ++ ([0x00, 0x01, 0x01] ++ [animation % 256, speed % 256, rainbow % 256]
            ++ nibbleBytes colorHex ++ [0x00, 0x00, 0x00, 0x00])
          ++ blocks)) := by
  have hcol2 : ¬(colorHex.length % 2 ≠ 0) := by rw [hcol]; decide
  have hcol3 : ¬((nibbleBytes colorHex).length ≠ 3) := by
    rw [nibbleBytes_length, hcol]
    omega
  have hh1 : to_bytes_le 2 (0x1D + text.length * (0x06 + size * 2))
      = .ok (leBytes 2 (0x1D + text.length * (0x06 + size * 2))) := by
    rw [to_bytes_le, if_pos]
    have : text.length * (0x06 + size * 2) ≤ 100 * (0x06 + 128 * 2) := by
      apply Nat.mul_le_mul hl.2
      omega
    norm_num at this ⊢
    omega
  have hh3 : to_bytes_le 2 (0x0E + text.length * (0x06 + size * 2))
      = .ok (leBytes 2 (0x0E + text.length * (0x06 + size * 2))) := by
    rw [to_bytes_le, if_pos]
    have : text.length * (0x06 + size * 2) ≤ 100 * (0x06 + 128 * 2) := by
      apply Nat.mul_le_mul hl.2
      omega
    norm_num at this ⊢
    omega
  have hslot : to_bytes_be 2 slot = .ok (leBytes 2 slot).reverse := by
    rw [to_bytes_be, if_pos]
    norm_num
    omega
  rw [send_text]
  rw [if_neg (by omega), if_neg (by omega), if_neg (by omega), if_neg (by omega),
    if_neg (by omega), if_neg (by omega), if_neg ha34]
  have h255 : ¬(0xFF < text.length) := by omega
  simp only [hh1, hh3, hslot]
  rw [if_neg h255, if_neg hcol2, if_neg hcol3]
  simp only [henc]

/-- C3.  With in-range parameters and a rasterization in which every glyph is
produced, `send_text` returns a plan with exactly one window whose data is
`len1(2B LE) 00 01 00 len2(2B LE) 00 00 CRC32(4B LE) saveSlot(2B BE)
charCount(1B) properties(12B) glyphBlocks`, with
`len1 = 0x1D + N*(6+2*H)`, `len2 = 0x0E + N*(6+2*H)`,
`properties = 00 01 01 animation speed rainbow colorRGB 00 00 00 00` and the
CRC computed over `charCount ⧺ properties ⧺ glyphBlocks`. -/
theorem c3_send_text_frame_layout (text : List Nat)
    (rainbow animation slot speed size : Nat)
    (colorHex : List Nat) (ras : Nat → Option (List Nat × Nat)) (blocks : List Nat)
    (hr : rainbow ≤ 9) (ha : animation ≤ 7) (ha34 : ¬(animation = 3 ∨ animation = 4))
    (hs : 1 ≤ slot ∧ slot ≤ 10) (hsp : speed ≤ 100)
    (hl : 1 ≤ text.length ∧ text.length ≤ 100) (hsz : 1 ≤ size ∧ size ≤ 128)
    (hcol : colorHex.length = 6)
    (henc : encode_text ras text size colorHex = .ok blocks) :
    ∃ plan, send_text text rainbow animation slot speed colorHex size ras = .ok plan ∧
      plan.windows.length = 1 ∧
      plan.windows.map Window.data
        = [leBytes 2 (0x1D + text.length * (6 + 2 * size))
            ++ [0x00, 0x01, 0x00]
            ++ leBytes 2 (0x0E + text.length * (6 + 2 * size))
            ++ [0x00, 0x00]
            ++ leBytes 4 (crc32 ([text.length]
                ++ ([0x00, 0x01, 0x01] ++ [animation % 256, speed % 256, rainbow % 256]
                  ++ nibbleBytes colorHex ++ [0x00, 0x00, 0x00, 0x00]) ++ blocks))
            ++ (leBytes 2 slot).reverse
            ++ [text.length]
            ++ ([0x00, 0x01, 0x01] ++ [animation % 256, speed % 256, rainbow % 256]
              ++ nibbleBytes colorHex ++ [0x00, 0x00, 0x00, 0x00])
            ++ blocks] := by
  refine ⟨_, send_text_build text rainbow animation slot speed size colorHex ras blocks
    hr ha ha34 hs hsp hl hsz hcol henc, by rfl, ?_⟩
  simp only [single_window_plan, List.map_cons, List.map_nil]
  have hgap : 0x06 + size * 2 = 6 + 2 * size := by omega
  rw [hgap]

/-- Witness for C3: text "A" (codepoint 65) under a rasterizer that produces a
16-row, 9-wide all-off glyph, with default-like parameters. -/
theorem c3_witness :
    ∃ plan, send_text [65] 0 0 1 80 [15, 15, 15, 15, 15, 15] 16
        (fun _ => some (List.replicate 64 0, 9)) = .ok plan ∧
      plan.windows.length = 1 ∧
      plan.windows.map Window.data
        = [leBytes 2 (0x1D + ([65] : List Nat).length * (6 + 2 * 16))
            ++ [0x00, 0x01, 0x00]
            ++ leBytes 2 (0x0E + ([65] : List Nat).length * (6 + 2 * 16))
            ++ [0x00, 0x00]
            ++ leBytes 4 (crc32 ([([65] : List Nat).length]
                ++ ([0x00, 0x01, 0x01] ++ [0 % 256, 80 % 256, 0 % 256]
                  ++ nibbleBytes [15, 15, 15, 15, 15, 15] ++ [0x00, 0x00, 0x00, 0x00])
                ++ (0x80 :: (nibbleBytes [15, 15, 15, 15, 15, 15]
                  ++ [9 % 256, 16 % 256] ++ List.replicate 32 0 ++ []))))
            ++ (leBytes 2 1).reverse
            ++ [([65] : List Nat).length]
            ++ ([0x00, 0x01, 0x01] ++ [0 % 256, 80 % 256, 0 % 256]
              ++ nibbleBytes [15, 15, 15, 15, 15, 15] ++ [0x00, 0x00, 0x00, 0x00])
            ++ (0x80 :: (nibbleBytes [15, 15, 15, 15, 15, 15]
              ++ [9 % 256, 16 % 256] ++ List.replicate 32 0 ++ []))] := by
  exact c3_send_text_frame_layout [65] 0 0 1 80 16 [15, 15, 15, 15, 15, 15]
    (fun _ => some (List.replicate 64 0, 9))
    (0x80 :: (nibbleBytes [15, 15, 15, 15, 15, 15]
      ++ [9 % 256, 16 % 256] ++ List.replicate 32 0 ++ []))
    (by decide) (by decide) (by decide) (by decide) (by decide) (by decide)
    (by decide) (by decide) (by rfl)

/-- C4.  With all other parameters in range and a rasterization that encodes,
`send_text` rejects animations 3 and 4 with the dedicated bootloop error and
accepts every animation in `{0, 1, 2, 5, 6, 7}`. -/
theorem c4_animation_3_4_rejected (text : List Nat)
    (rainbow animation slot speed size : Nat)
    (colorHex : List Nat) (ras : Nat → Option (List Nat × Nat)) (blocks : List Nat)
    (hr : rainbow ≤ 9) (hs : 1 ≤ slot ∧ slot ≤ 10) (hsp : speed ≤ 100)
    (hl : 1 ≤ text.length ∧ text.length ≤ 100) (hsz : 1 ≤ size ∧ size ≤ 128)
    (hcol : colorHex.length = 6)
    (henc : encode_text ras text size colorHex = .ok blocks) :
    ((animation = 3 ∨ animation = 4) →
      send_text text rainbow animation slot speed colorHex size ras
        = .error "Invalid animation for text display") ∧
    (animation = 0 ∨ animation = 1 ∨ animation = 2 ∨ animation = 5 ∨ animation = 6
        ∨ animation = 7 →
      ∃ plan, send_text text rainbow animation slot speed colorHex size ras
        = .ok plan) := by
  constructor
  · intro h34
    rw [send_text]
    rw [if_neg (by omega), if_neg (by omega), if_neg (by omega), if_neg (by omega),
      if_neg (by omega), if_neg (by omega), if_pos h34]
  · intro hok
    exact ⟨_, send_text_build text rainbow animation slot speed size colorHex ras blocks
      (by omega) (by omega) (by omega) hs hsp hl hsz hcol henc⟩

/-- Witness for C4 at `SendText("A", animation=3)` with `matrixHeight = 16`,
`saveSlot = 1` and a rasterizer returning no glyph: rejected with the
bootloop error. -/
theorem c4_witness :
    send_text [65] 0 3 1 80 [15, 15, 15, 15, 15, 15] 16 (fun _ => none)
      = .error "Invalid animation for text display" := by
  exact (c4_animation_3_4_rejected [65] 0 3 1 80 16 [15, 15, 15, 15, 15, 15]
    (fun _ => none) [] (by decide) (by decide) (by decide) (by decide) (by decide)
    (by decide) (by rfl)).1 (Or.inl rfl)

/-! ### `_encode_text` length accounting (C10) -/

theorem filter_length_lt_of_dropped (p : Nat → Bool) :
    ∀ l : List Nat, (∃ c ∈ l, p c = false) → (l.filter p).length < l.length := by
  intro l
  induction l with
  | nil => rintro ⟨c, hc, -⟩; simp at hc
  | cons a rest ih =>
    rintro ⟨c, hc, hpc⟩
    rcases List.mem_cons.mp hc with h | h
    · subst h
      rw [List.filter_cons, if_neg (by simp [hpc])]
      have := List.length_filter_le p rest
      simp only [List.length_cons]
      omega
    · by_cases hpa : p a = true
      · rw [List.filter_cons, if_pos hpa]
        have := ih ⟨c, h, hpc⟩
        simp only [List.length_cons]
        omega
      · rw [List.filter_cons, if_neg hpa]
        have := ih ⟨c, h, hpc⟩
        simp only [List.length_cons]
        omega

/-- When every character of the text either fails to rasterize or yields a
`4 * size`-nibble bitmap, the glyph loop succeeds and emits one
`6 + 2*size`-byte block per *successfully rasterized* character only. -/
theorem encode_text_loop_length (ras : Nat → Option (List Nat × Nat)) (size : Nat)
    (cb : List Nat) (hsz : 1 ≤ size) :
    ∀ text : List Nat,
      (∀ c ∈ text, ras c = none ∨ ∃ hx w, ras c = some (hx, w) ∧ hx.length = 4 * size) →
      ∃ blocks, encode_text_loop ras size cb text = .ok blocks ∧
        blocks.length
          = (text.filter (fun c => (ras c).isSome)).length * (cb.length + 3 + 2 * size) := by
  intro text
  induction text with
  | nil => intro _; exact ⟨[], rfl, by simp⟩
  | cons c rest ih =>
    intro hshape
    obtain ⟨tail, htail, htlen⟩ := ih (fun x hx => hshape x (List.mem_cons_of_mem c hx))
    rcases hshape c (List.mem_cons_self c rest) with hc | ⟨hx, w, hc, hxlen⟩
    · refine ⟨tail, ?_, ?_⟩
      · simp only [encode_text_loop, hc, htail]
      · rw [List.filter_cons, if_neg (by simp [hc])]
        exact htlen
    · have hxne : ¬(hx = []) := by
        intro he
        rw [he] at hxlen
        simp at hxlen
        omega
      have hxeven : ¬(hx.length % 2 ≠ 0) := by omega
      have hnblen : (nibbleBytes hx).length = 2 * size := by
        rw [nibbleBytes_length, hxlen]
        omega
      obtain ⟨wire, hwire, hwlen⟩ := glyph_wire_transform_ok (nibbleBytes hx)
        (by rw [hnblen]; omega)
      refine ⟨0x80 :: (cb ++ [w % 256, size % 256] ++ wire ++ tail), ?_, ?_⟩
      · simp only [encode_text_loop, hc, if_neg hxne, if_neg hxeven, hwire, htail]
      · rw [List.filter_cons, if_pos (by simp [hc])]
        simp only [List.length_cons, List.length_append, List.length_nil, htlen,
          hwlen, hnblen]
        ring

/-- C10.  If some character of the text fails to rasterize (`char_to_hex`
returns no bitmap) while the remaining characters produce standard
`4 * size`-nibble bitmaps, `send_text` still succeeds, the emitted frame
counts the FULL text length in its 1-byte charCount and in both header length
fields `len1 = 0x1D + N*(6+2H)` and `len2 = 0x0E + N*(6+2H)`, yet the glyph
payload holds one `6 + 2*size`-byte block per rasterized character only — at
least one block short of what the declared lengths assume. -/
theorem c10_skipped_glyphs_still_counted (text : List Nat)
    (rainbow animation slot speed size : Nat)
    (colorHex : List Nat) (ras : Nat → Option (List Nat × Nat))
    (hr : rainbow ≤ 9) (ha : animation ≤ 7) (ha34 : ¬(animation = 3 ∨ animation = 4))
    (hs : 1 ≤ slot ∧ slot ≤ 10) (hsp : speed ≤ 100)
    (hl : 1 ≤ text.length ∧ text.length ≤ 100) (hsz : 1 ≤ size ∧ size ≤ 128)
    (hcol : colorHex.length = 6)
    (hshape : ∀ c ∈ text, ras c = none ∨ ∃ hx w, ras c = some (hx, w)
      ∧ hx.length = 4 * size)
    (hskip : ∃ c ∈ text, ras c = none) :
    ∃ blocks,
      encode_text ras text size colorHex = .ok blocks ∧
      send_text text rainbow animation slot speed colorHex size ras = .ok
        (single_window_plan "send_text"
          (leBytes 2 (0x1D + text.length * (6 + 2 * size))
            ++ [0x00, 0x01, 0x00]
            ++ leBytes 2 (0x0E + text.length * (6 + 2 * size))
            ++ [0x00, 0x00]
            ++ leBytes 4 (crc32 ([text.length]
                ++ ([0x00, 0x01, 0x01] ++ [animation % 256, speed % 256, rainbow % 256]
                  ++ nibbleBytes colorHex ++ [0x00, 0x00, 0x00, 0x00]) ++ blocks))
            ++ (leBytes 2 slot).reverse
            ++ [text.length]
            ++ ([0x00, 0x01, 0x01] ++ [animation % 256, speed % 256, rainbow % 256]
              ++ nibbleBytes colorHex ++ [0x00, 0x00, 0x00, 0x00])
            ++ blocks)) ∧
      blocks.length
        = (text.filter (fun c => (ras c).isSome)).length * (6 + 2 * size) ∧
      blocks.length + (6 + 2 * size) ≤ text.length * (6 + 2 * size) := by
  have hcol2 : ¬(colorHex.length % 2 ≠ 0) := by rw [hcol]; decide
  have hcol3 : ¬((nibbleBytes colorHex).length ≠ 3) := by
    rw [nibbleBytes_length, hcol]
    omega
  have hcb : (nibbleBytes colorHex).length = 3 := by omega
  obtain ⟨blocks, hloop, hblen⟩ := encode_text_loop_length ras size (nibbleBytes colorHex)
    (by omega) text hshape
  have henc : encode_text ras text size colorHex = .ok blocks := by
    rw [encode_text, if_neg hcol2, if_neg hcol3, hloop]
  have hgap : (0x06 + size * 2) = 6 + 2 * size := by omega
  have hbuild := send_text_build text rainbow animation slot speed size colorHex ras blocks
    hr ha ha34 hs hsp hl hsz hcol henc
  rw [hgap] at hbuild
  refine ⟨blocks, henc, hbuild, ?_, ?_⟩
  · rw [hblen, hcb]
  · have hk : (text.filter (fun c => (ras c).isSome)).length < text.length := by
      apply filter_length_lt_of_dropped
      obtain ⟨c, hc, hnone⟩ := hskip
      exact ⟨c, hc, by rw [hnone]; rfl⟩
    rw [hblen, hcb]
    have : ((text.filter (fun c => (ras c).isSome)).length + 1) * (3 + 3 + 2 * size)
        ≤ text.length * (3 + 3 + 2 * size) := Nat.mul_le_mul_right _ (by omega)
    calc (text.filter (fun c => (ras c).isSome)).length * (3 + 3 + 2 * size) + (6 + 2 * size)
        = ((text.filter (fun c => (ras c).isSome)).length + 1) * (3 + 3 + 2 * size) := by
          ring
    _ ≤ text.length * (3 + 3 + 2 * size) := this
    _ = text.length * (6 + 2 * size) := by ring_nf

/-- Witness for C10: text "AB" where "A" fails to rasterize and "B" yields a
standard 9×16 glyph; the single emitted block is one short of the two the
headers account for. -/
theorem c10_witness :
    ∃ blocks,
      encode_text (fun c => if c = 66 then some (List.replicate 64 15, 9) else none)
        [65, 66] 16 [15, 15, 15, 15, 15, 15] = .ok blocks ∧
      send_text [65, 66] 0 0 1 80 [15, 15, 15, 15, 15, 15] 16
        (fun c => if c = 66 then some (List.replicate 64 15, 9) else none) = .ok
        (single_window_plan "send_text"
          (leBytes 2 (0x1D + ([65, 66] : List Nat).length * (6 + 2 * 16))
            ++ [0x00, 0x01, 0x00]
            ++ leBytes 2 (0x0E + ([65, 66] : List Nat).length * (6 + 2 * 16))
            ++ [0x00, 0x00]
            ++ leBytes 4 (crc32 ([([65, 66] : List Nat).length]
                ++ ([0x00, 0x01, 0x01] ++ [0 % 256, 80 % 256, 0 % 256]
                  ++ nibbleBytes [15, 15, 15, 15, 15, 15] ++ [0x00, 0x00, 0x00, 0x00])
                ++ blocks))
            ++ (leBytes 2 1).reverse
            ++ [([65, 66] : List Nat).length]
            ++ ([0x00, 0x01, 0x01] ++ [0 % 256, 80 % 256, 0 % 256]
              ++ nibbleBytes [15, 15, 15, 15, 15, 15] ++ [0x00, 0x00, 0x00, 0x00])
            ++ blocks)) ∧
      blocks.length
        = (([65, 66] : List Nat).filter
            (fun c => ((fun c => if c = 66 then some (List.replicate 64 15, 9)
              else none) c : Option (List Nat × Nat)).isSome)).length * (6 + 2 * 16) ∧
      blocks.length + (6 + 2 * 16) ≤ ([65, 66] : List Nat).length * (6 + 2 * 16) := by
  exact c10_skipped_glyphs_still_counted [65, 66] 0 0 1 80 16 [15, 15, 15, 15, 15, 15]
    (fun c => if c = 66 then some (List.replicate 64 15, 9) else none)
    (by decide) (by decide) (by decide) (by decide) (by decide) (by decide) (by decide)
    (by decide)
    (by
      intro c hc
      rcases List.mem_cons.mp hc with h | h
      · subst h
        left
        rfl
      · rcases List.mem_cons.mp h with h | h
        · subst h
          right
          exact ⟨List.replicate 64 15, 9, rfl, by simp⟩
        · simp at h)
    ⟨65, by simp, rfl⟩

end IPixel
